import Mathlib

/-!
# Verification of `timetable.py` (nextbus archive parsing and deduplication)

Shallow embedding of the program in `src/timetable.py`.  Python floats are
modelled as rationals (`ℚ`), Python ints as integers (`ℤ`), and text lines as
lists of characters (`List Char`).  Fallible code (Python `assert` /
`IndexError` / `ValueError` / `KeyError`, all of which abort the run) is
modelled with `Option` / `Except Unit`.
-/

namespace Timetable

/-! ## Python string primitives -/

/-- Whitespace characters recognised by Python's `str.strip()` / `str.split()`. -/
def pyIsSpace (c : Char) : Bool :=
  c = ' ' || c = '\t' || c = '\n' || c = '\r' || c = '\x0b' || c = '\x0c'

/-- Python `str.strip()`: remove whitespace at both edges. -/
def pyStrip (l : List Char) : List Char :=
  ((l.dropWhile pyIsSpace).reverse.dropWhile pyIsSpace).reverse

/-- Split a character list at every character satisfying `p`.  Always returns a
non-empty list of (possibly empty) pieces. -/
def splitPred (p : Char → Bool) : List Char → List (List Char)
  | [] => [[]]
  | a :: rest =>
    match splitPred p rest with
    | [] => [[]]
    | s :: ss => if p a then [] :: s :: ss else (a :: s) :: ss

/-- Python `str.split(c)` for a one-character separator `c`. -/
def splitOnChar (c : Char) (l : List Char) : List (List Char) :=
  splitPred (fun a => a = c) l

/-- Python `str.split()` with no argument: split on whitespace runs, dropping
empty pieces. -/
def pyWsSplit (l : List Char) : List (List Char) :=
  (splitPred pyIsSpace l).filter (fun s => !s.isEmpty)

/-- Predicate `hasPrefixL p l` is true when `p` is a prefix of `l`
(Python `str.startswith`). -/
def hasPrefixL : List Char → List Char → Bool
  | [], _ => true
  | _ :: _, [] => false
  | a :: as, b :: bs => a = b && hasPrefixL as bs

/-- Predicate `hasSuffixL p l` is true when `p` is a suffix of `l`
(Python `str.endswith`). -/
def hasSuffixL (p l : List Char) : Bool :=
  hasPrefixL p.reverse l.reverse

/-- Numeric value of a decimal digit character. -/
def digitVal (c : Char) : ℕ := c.toNat - 48

/-- Read a non-empty all-digit string as a natural number. -/
def pyReadNat (l : List Char) : Option ℕ :=
  if !l.isEmpty && l.all Char.isDigit then
    some (l.foldl (fun a c => 10 * a + digitVal c) 0)
  else none

/-- Signed integer literal: optional sign followed by digits
(no surrounding whitespace). -/
def pyIntCore : List Char → Option ℤ
  | [] => none
  | c :: rest =>
    if c = '+' then (pyReadNat rest).map (fun n => (n : ℤ))
    else if c = '-' then (pyReadNat rest).map (fun n => -(n : ℤ))
    else (pyReadNat (c :: rest)).map (fun n => (n : ℤ))

/-- Python `int(s)`: surrounding whitespace is allowed, then an optional sign
and a non-empty run of digits. -/
def pyInt (l : List Char) : Option ℤ :=
  pyIntCore (pyStrip l)

/-- Unsigned decimal fraction: `digits`, `digits.digits`, `digits.` or
`.digits`, as accepted by Python `float()`. -/
def pyFrac (l : List Char) : Option ℚ :=
  match splitOnChar '.' l with
  | [a] => (pyReadNat a).map (fun n => (n : ℚ))
  | [a, b] =>
    if a.isEmpty then (pyReadNat b).map (fun n => (n : ℚ) / 10 ^ b.length)
    else if b.isEmpty then (pyReadNat a).map (fun n => (n : ℚ))
    else
      match pyReadNat a, pyReadNat b with
      | some x, some y => some ((x : ℚ) + (y : ℚ) / 10 ^ b.length)
      | _, _ => none
  | _ => none

/-- Optional sign in front of a fraction or exponent-free mantissa. -/
def pySigned (core : List Char → Option ℚ) : List Char → Option ℚ
  | [] => none
  | c :: rest =>
    if c = '+' then core rest
    else if c = '-' then (core rest).map Neg.neg
    else core (c :: rest)

/-- Python `float(s)` on finite decimal literals: surrounding whitespace, an
optional sign, a decimal fraction and an optional `e`/`E` exponent.  The
non-finite literals (`inf`, `nan`) have no rational counterpart and are not
modelled. -/
def pyFloat (l : List Char) : Option ℚ :=
  match splitPred (fun c => c = 'e' || c = 'E') (pyStrip l) with
  | [m] => pySigned pyFrac m
  | [m, e] =>
    match pySigned pyFrac m, pyIntCore e with
    | some mv, some ev => some (mv * (10 : ℚ) ^ ev)
    | _, _ => none
  | _ => none

/-- Decimal digit character (the characters produced by Python `str(int)`). -/
def digitChar10 (d : ℕ) : Char := Char.ofNat (48 + d)

/-- Decimal digits of `n`, least significant first. -/
def natToRevChars (n : ℕ) : List Char :=
  if h : n < 10 then [digitChar10 n]
  else digitChar10 (n % 10) :: natToRevChars (n / 10)
  decreasing_by exact Nat.div_lt_self (by omega) (by omega)

/-- Python `str(n)` for a natural number. -/
def natToChars (n : ℕ) : List Char := (natToRevChars n).reverse

/-- Python `str(i)` for an integer. -/
def intToChars (i : ℤ) : List Char :=
  if i < 0 then '-' :: natToChars (-i).toNat else natToChars i.toNat

/-- Association-list lookup (Python `dict` membership / indexing). -/
def alookup {α β : Type} [DecidableEq α] (k : α) : List (α × β) → Option β
  | [] => none
  | (a, b) :: rest => if a = k then some b else alookup k rest

/-- The last `n` elements of a list. -/
def lastN {α : Type} (n : ℕ) (l : List α) : List α :=
  l.drop (l.length - n)

/-- Python `min` over a list of rationals (`none` on the empty list). -/
def listMinQ : List ℚ → Option ℚ
  | [] => none
  | a :: l => some (l.foldl min a)

/-! ## Data model

`vehicle_location` mirrors the namedtuple
`vehicle_location(timestamp id route dir lat lon heading speed)`. -/

structure vehicle_location where
  timestamp : ℚ
  id : ℤ
  route : String
  dir : Option String
  lat : ℚ
  lon : ℚ
  heading : ℤ
  speed : ℤ
deriving DecidableEq, Repr

/-- The payload of the out-of-order `logging.warning` call in
`Archive.locations` (the query time and the record's fields; the
`secsSinceReport` slot holds `query_timestamp - loc.timestamp`). -/
structure Warning where
  query_timestamp : ℚ
  id : ℤ
  route : String
  dir : Option String
  lat : ℚ
  lon : ℚ
  secsSinceReport : ℚ
  heading : ℤ
  speed : ℤ
deriving DecidableEq, Repr

def mkWarning (qt : ℚ) (loc : vehicle_location) : Warning :=
  { query_timestamp := qt, id := loc.id, route := loc.route, dir := loc.dir,
    lat := loc.lat, lon := loc.lon, secsSinceReport := qt - loc.timestamp,
    heading := loc.heading, speed := loc.speed }

/-! ## Deduplicator (`Archive.locations`) -/

/-- The duplicate predicate of `Archive.locations`: the body of the
`any(...)` generator expression.  Python's float literal `0.0000001` is
modelled as the rational `1 / 10 ^ 7`. -/
def isDup (loc prev : vehicle_location) : Bool :=
  decide (|loc.timestamp - prev.timestamp| < 3) &&
  decide (loc.route = prev.route) &&
  decide (|loc.lat - prev.lat| < 1 / 10 ^ 7) &&
  decide (|loc.lon - prev.lon| < 1 / 10 ^ 7) &&
  decide (loc.speed = prev.speed) &&
  (decide (loc.heading = prev.heading) || decide (loc.speed = 0))

/-- The `previous_locations` dict, as a total map from vehicle id to a
history list (`dict.setdefault(id, [])` reads the empty list for a missing
key). -/
def emptyHist : ℤ → List vehicle_location := fun _ => []

def updateHist (h : ℤ → List vehicle_location) (i : ℤ)
    (v : List vehicle_location) : ℤ → List vehicle_location :=
  fun j => if j = i then v else h j

/-- Python `prevs.append(loc); if len(prevs) > 3: prevs.pop(0)`. -/
def push3 (prevs : List vehicle_location) (loc : vehicle_location) :
    List vehicle_location :=
  if 3 < (prevs ++ [loc]).length then (prevs ++ [loc]).tail else prevs ++ [loc]

/-- One iteration of the inner loop of `Archive.locations`, for a single
record: returns the new history map, the emitted records (`[]` or `[loc]`)
and the emitted out-of-order warnings. -/
def locations_step (hist : ℤ → List vehicle_location) (qt : ℚ)
    (loc : vehicle_location) :
    (ℤ → List vehicle_location) × List vehicle_location × List Warning :=
  let prevs := hist loc.id
  if prevs.any (fun prev => isDup loc prev) then (hist, [], [])
  else
    let ws : List Warning :=
      match prevs.getLast? with
      | none => []
      | some p => if loc.timestamp ≤ p.timestamp then [mkWarning qt loc] else []
    (updateHist hist loc.id (push3 prevs loc), [loc], ws)

/-- Function `Archive.locations` over an already sorted and flattened stream of
`(query_timestamp, record)` pairs (the iteration order of the two nested
loops). -/
def locations_run (hist : ℤ → List vehicle_location) :
    List (ℚ × vehicle_location) →
    (ℤ → List vehicle_location) × List vehicle_location × List Warning
  | [] => (hist, [], [])
  | (qt, loc) :: rest =>
    let s := locations_step hist qt loc
    let r := locations_run s.1 rest
    (r.1, s.2.1 ++ r.2.1, s.2.2 ++ r.2.2)

deriving instance DecidableEq for Except

/-! ## ResponseParser (`Archive.query_data`) -/

/-- The XML header marker searched for by `query_data`. -/
def xmlMark : List Char := "<?xml version=\"1.0\" encoding=\"utf-8\" ?>".data

def copyMark : List Char := "<body copyright=\"".data

def errMark : List Char := "<Error shouldRetry=\"".data

def timeMark : List Char := "<lastTime time=\"".data

def vehicleIdMark : List Char := "<vehicle id=\"".data

def vehicleSpaceMark : List Char := "<vehicle ".data

def slashGtMark : List Char := "/>".data

def quoteGtMark : List Char := "\">".data

def quoteSlashGtMark : List Char := "\"/>".data

def bodyCloseMark : List Char := "</body>".data

def errCloseMark : List Char := "</Error>".data

/-- Python `line.strip().endswith('<?xml version="1.0" encoding="utf-8" ?>')`. -/
def header_line (l : List Char) : Bool :=
  hasSuffixL xmlMark (pyStrip l)

/-- Python `enumerate(body)` starting at index `n`. -/
def idxFrom {α : Type} (n : ℕ) : List α → List (ℕ × α)
  | [] => []
  | a :: l => (n, a) :: idxFrom (n + 1) l

/-- Python `[i for i, line in enumerate(body) if line.strip().endswith(...)]`. -/
def xml_header_idxs (body : List (List Char)) : List ℕ :=
  ((idxFrom 0 body).filter (fun p => header_line p.2)).map Prod.fst

/-- Python `value[1:-1]`. -/
def stripQuotes (v : List Char) : List Char := (v.drop 1).dropLast

/-- One `attr` iteration of the attribute loop: `name, value = attr.split('=')`
(exactly one `=`), duplicate-key check, symmetric-quote check
(`value[0] == value[-1] == '"'`), then store `value[1:-1]`. -/
def parse_attr_tokens :
    List (List Char) → List (List Char × List Char) →
    Option (List (List Char × List Char))
  | [], attrs => some attrs
  | tok :: rest, attrs =>
    match splitOnChar '=' tok with
    | [name, value] =>
      if (alookup name attrs).isSome then none
      else
        match value.head?, value.getLast? with
        | some c1, some c2 =>
          if c1 = '"' && c2 = '"' then
            parse_attr_tokens rest (attrs ++ [(name, stripQuotes value)])
          else none
        | _, _ => none
    | _ => none

/-- Python `line.strip()[len('<vehicle '):-len('/>')]`. -/
def innerSlice (t : List Char) : List Char :=
  (t.take (t.length - 2)).drop 9

/-- Shape check and attribute collection for one `<vehicle .../>` line:
`assert line.strip().startswith('<vehicle id="') and line.strip().endswith('"/>')`
followed by the attribute loop. -/
def line_attrs (line : List Char) : Option (List (List Char × List Char)) :=
  let t := pyStrip line
  if hasPrefixL vehicleIdMark t && hasSuffixL quoteSlashGtMark t then
    parse_attr_tokens (pyWsSplit (innerSlice t)) []
  else none

/-- The value of attribute `k` on a vehicle line, when the line's shape and
attribute syntax are accepted. -/
def attr_value (line : List Char) (k : List Char) : Option (List Char) :=
  (line_attrs line).bind (alookup k)

def secsKey : List Char := "secsSinceReport".data

def idKey : List Char := "id".data

def routeKey : List Char := "routeTag".data

def dirKey : List Char := "dirTag".data

def latKey : List Char := "lat".data

def lonKey : List Char := "lon".data

def headingKey : List Char := "heading".data

def speedKey : List Char := "speedKmHr".data

/-- Decode one `<vehicle .../>` line into a provisional record whose
`timestamp` holds the relative `secsSinceReport` value.  A missing required
key (`KeyError`) or an unparsable numeric value (`ValueError`) is a failure;
`dirTag` is optional (`attrs.get('dirTag')`). -/
def parse_vehicle_line (line : List Char) : Option vehicle_location :=
  match line_attrs line with
  | none => none
  | some attrs =>
    match (alookup secsKey attrs).bind pyInt, (alookup idKey attrs).bind pyInt,
      alookup routeKey attrs, (alookup latKey attrs).bind pyFloat,
      (alookup lonKey attrs).bind pyFloat,
      (alookup headingKey attrs).bind pyInt,
      (alookup speedKey attrs).bind pyInt with
    | some secs, some i, some route, some lat, some lon, some heading,
        some speed =>
      some { timestamp := (secs : ℚ), id := i, route := String.mk route,
             dir := (alookup dirKey attrs).map String.mk,
             lat := lat, lon := lon, heading := heading, speed := speed }
    | _, _, _, _, _, _, _ => none

/-- The interior loop of `query_data`: decode every line, failing on a
duplicate vehicle id (`assert loc.id not in vehicle_locations`); the
accumulator is the `vehicle_locations` dict in insertion order. -/
def parse_interior :
    List (List Char) → List (ℤ × vehicle_location) →
    Except Unit (List (ℤ × vehicle_location))
  | [], acc => .ok acc
  | l :: rest, acc =>
    match parse_vehicle_line l with
    | none => .error ()
    | some loc =>
      if (alookup loc.id acc).isSome then .error ()
      else parse_interior rest (acc ++ [(loc.id, loc)])

/-- The final step of `query_data`: if any vehicle was decoded, compute
`query_timestamp = last_time + min(relative timestamps)` and rewrite every
timestamp to `query_timestamp - relative`; with no vehicles, yield nothing. -/
def finalize (last_time : ℚ) (vlocs : List vehicle_location) :
    Option (ℚ × List vehicle_location) :=
  match listMinQ (vlocs.map (fun loc => loc.timestamp)) with
  | none => none
  | some m =>
    let qt := last_time + m
    some (qt, vlocs.map (fun loc => { loc with timestamp := qt - loc.timestamp }))

/-- Function `query_data` on one body after the truncation-recovery step: the
header/footer assertions, the error-batch branch, the `lastTime` decode and
the vehicle loop.  `.error ()` models a raised exception, `.ok none` a body
that yields no batch. -/
def parse_retained (seg : List (List Char)) :
    Except Unit (Option (ℚ × List vehicle_location)) :=
  match seg.get? 1 with
  | none => .error ()
  | some l1 =>
    if hasPrefixL copyMark (pyStrip l1) && hasSuffixL quoteGtMark (pyStrip l1) then
      match seg.getLast? with
      | none => .error ()
      | some ll =>
        if pyStrip ll = bodyCloseMark then
          match seg.get? 2 with
          | none => .error ()
          | some l2 =>
            match seg.get? (seg.length - 2) with
            | none => .error ()
            | some lm2 =>
              if hasPrefixL errMark (pyStrip l2) then
                if pyStrip lm2 = errCloseMark then .ok none else .error ()
              else
                if hasPrefixL timeMark (pyStrip lm2) &&
                    hasSuffixL quoteSlashGtMark (pyStrip lm2) then
                  match splitOnChar '"' lm2 with
                  | [_, s, _] =>
                    match pyInt s with
                    | none => .error ()
                    | some n =>
                      match parse_interior ((seg.take (seg.length - 2)).drop 2) [] with
                      | .error e => .error e
                      | .ok assoc =>
                        .ok (finalize ((n : ℚ) / 1000) (assoc.map Prod.snd))
                  | _ => .error ()
                else .error ()
        else .error ()
    else .error ()

/-- Function `query_data` on one body: keep only the suffix from the last XML header
line (`body = body[xml_header[-1]:]`, `IndexError` when there is none), then
parse the retained segment. -/
def parse_body (body : List (List Char)) :
    Except Unit (Option (ℚ × List vehicle_location)) :=
  match (xml_header_idxs body).getLast? with
  | none => .error ()
  | some i => parse_retained (body.drop i)

/-! ## The vehicle-line shape as the specification words it

The spec describes an acceptable interior line as one whose edge-trimmed text
"matches `<vehicle ...attrs.../>`" where the attributes are
"whitespace-separated `key="value"` pairs", no key repeats, every value is
symmetrically quoted, and the required keys are present. -/

def token_key (tok : List Char) : List Char :=
  match splitOnChar '=' tok with
  | k :: _ => k
  | [] => []

def token_val (tok : List Char) : List Char :=
  match splitOnChar '=' tok with
  | [_, v] => v
  | _ => []

/-- One attribute token of the shape `key="value"`: exactly one `=`, and a
value that starts and ends with a double quote. -/
def token_ok (tok : List Char) : Bool :=
  match splitOnChar '=' tok with
  | [_, value] => value.head? = some '"' && value.getLast? = some '"'
  | _ => false

def required_keys : List (List Char) :=
  [secsKey, idKey, routeKey, latKey, lonKey, headingKey, speedKey]

/-- The vehicle-line shape exactly as the specification words it (claim C7):
edge-trimmed text of the shape `<vehicle ...attrs.../>`, whitespace-separated
`key="value"` attribute tokens, no repeated key, every value symmetrically
double-quoted, all required keys present. -/
def claim_vehicle_shape (line : List Char) : Bool :=
  let t := pyStrip line
  hasPrefixL vehicleSpaceMark t && hasSuffixL slashGtMark t &&
  (let toks := pyWsSplit (innerSlice t)
   toks.all token_ok &&
   decide ((toks.map token_key).Nodup) &&
   required_keys.all (fun k => (toks.map token_key).contains k))

/-- The numeric conversions demanded by the vehicle-line decode: the values
of `secsSinceReport`, `id`, `heading`, `speedKmHr` parse as integers and
those of `lat`, `lon` as floats. -/
def vehicle_line_numerics (line : List Char) : Bool :=
  ((attr_value line secsKey).bind pyInt).isSome &&
  ((attr_value line idKey).bind pyInt).isSome &&
  ((attr_value line latKey).bind pyFloat).isSome &&
  ((attr_value line lonKey).bind pyFloat).isSome &&
  ((attr_value line headingKey).bind pyInt).isSome &&
  ((attr_value line speedKey).bind pyInt).isSome

/-! ## CSV encoding (`Archive.csv`) and decoding (`read_csv`)

The textual representation Python chooses for a float (`str(x)`) is
abstracted as a parameter `fstr`; integers and strings are rendered exactly
as `str` renders them. -/

def header_fields : List (List Char) :=
  [ "timestamp".data, "id".data, "route".data, "dir".data,
    "lat".data, "lon".data, "heading".data, "speed".data]

/-- Python `sep.join(fields)`. -/
def joinSep (sep : List Char) : List (List Char) → List Char
  | [] => []
  | [f] => f
  | f :: rest => f ++ sep ++ joinSep sep rest

/-- The eight textual fields of one record, in CSV column order
(`'' if x is None else str(x)`; the float representation is the parameter
`fstr`). -/
def csv_fields (fstr : ℚ → List Char) (loc : vehicle_location) :
    List (List Char) :=
  [fstr loc.timestamp, intToChars loc.id, loc.route.data,
   (match loc.dir with | none => [] | some d => d.data),
   fstr loc.lat, fstr loc.lon, intToChars loc.heading, intToChars loc.speed]

/-- Python `','.join('' if x is None else str(x) for x in loc) + '\n'`. -/
def csv_line (fstr : ℚ → List Char) (loc : vehicle_location) : List Char :=
  joinSep [','] (csv_fields fstr loc) ++ ['\n']

/-- Function `Archive.csv` applied to a record sequence: the header line followed by
one comma-joined line per record. -/
def csv (fstr : ℚ → List Char) (locs : List vehicle_location) :
    List (List Char) :=
  (joinSep [','] header_fields ++ ['\n']) :: locs.map (csv_line fstr)

/-- A field value that cannot disturb the comma-separated, newline-terminated
framing. -/
def goodField (l : List Char) : Prop := ¬(',' ∈ l) ∧ ¬('\n' ∈ l)

/-- Python `line.rstrip('\n')`. -/
def pyRstripNl (l : List Char) : List Char :=
  (l.reverse.dropWhile (fun c => c = '\n')).reverse

/-- Function `read_csv` on one data line (after the header check): exactly eight
comma-separated fields converted by `float` / `int` / `str`, with an empty
`dir` field read as the absent value (`str(loc.dir) or None`).  A wrong field
count or an unparsable number aborts (`none`). -/
def read_csv_line (line : List Char) : Option vehicle_location :=
  match splitOnChar ',' (pyRstripNl line) with
  | [f0, f1, f2, f3, f4, f5, f6, f7] =>
    match pyFloat f0, pyInt f1, pyFloat f4, pyFloat f5, pyInt f6, pyInt f7 with
    | some ts, some i, some lat, some lon, some heading, some speed =>
      some { timestamp := ts, id := i, route := String.mk f2,
             dir := if f3.isEmpty then none else some (String.mk f3),
             lat := lat, lon := lon, heading := heading, speed := speed }
    | _, _, _, _, _, _ => none
  | _ => none

/-- Function `read_csv` over a line sequence: any line whose fields equal the header
field names is skipped, every other line must decode. -/
def read_csv : List (List Char) → Option (List vehicle_location)
  | [] => some []
  | line :: rest =>
    if splitOnChar ',' (pyRstripNl line) = header_fields then read_csv rest
    else
      match read_csv_line line, read_csv rest with
      | some loc, some locs => some (loc :: locs)
      | _, _ => none

/-! ## Derived notions used by the statements -/

/-- Predicate `accepts_from E S` says that every record of `S`, compared against the
last three entries of the accepted-so-far list (starting from `E`), is not a
duplicate.  This is the acceptance trace condition satisfied by every output
of the Deduplicator. -/
def accepts_from (E : List vehicle_location) : List vehicle_location → Prop
  | [] => True
  | o :: rest =>
    (∀ prev ∈ lastN 3 E, isDup o prev = false) ∧ accepts_from (E ++ [o]) rest

/-! ## Concrete examples used by the claims -/

/-- Duplicate-suppression example of C1: first record, id 7, route "A",
speed 0, heading 10. -/
def c1r1 : vehicle_location := ⟨100, 7, "A", none, 37, -122, 10, 0⟩

/-- Second record: 2.0 seconds later, position equal within `1e-7`,
heading 95, speed 0. -/
def c1r2 : vehicle_location := ⟨102, 7, "A", none, 37 + 1 / 10 ^ 8, -122, 95, 0⟩

/-- Four pairwise non-duplicate records for vehicle 1 (timestamps at least
10 s apart) and a fifth that duplicates only the first. -/
def c4s1 : vehicle_location := ⟨0, 1, "A", none, 37, -122, 10, 0⟩

def c4s2 : vehicle_location := ⟨10, 1, "A", none, 37, -122, 10, 0⟩

def c4s3 : vehicle_location := ⟨20, 1, "A", none, 37, -122, 10, 0⟩

def c4s4 : vehicle_location := ⟨30, 1, "A", none, 37, -122, 10, 0⟩

def c4s5 : vehicle_location := ⟨2, 1, "A", none, 37, -122, 10, 0⟩

def c4input4 : List (ℚ × vehicle_location) :=
  [(10, c4s1), (20, c4s2), (30, c4s3), (40, c4s4)]

def c4input5 : List (ℚ × vehicle_location) :=
  [(10, c4s1), (20, c4s2), (30, c4s3), (40, c4s4), (41, c4s5)]

/-- Out-of-order example for C5: an existing history entry … -/
def c5prev : vehicle_location := ⟨50, 3, "B", none, 10, 20, 0, 5⟩

def outTag : String := "out"

def emptyTag : String := ""

/-- An incoming non-duplicate record (different route) whose timestamp
does not exceed it. -/
def c5loc : vehicle_location := ⟨50, 3, "A", some outTag, 11, 21, 90, 7⟩

def c5hist : ℤ → List vehicle_location := updateHist emptyHist 3 [c5prev]

/-- Idempotence example for C8: a record and a near-duplicate of it. -/
def c8a : vehicle_location := ⟨100, 9, "A", none, 37, -122, 10, 0⟩

def c8b : vehicle_location := ⟨101, 9, "A", none, 37, -122, 20, 0⟩

def c8input : List (ℚ × vehicle_location) := [(102, c8a), (102, c8b)]

def xmlHeaderLine : List Char := "<?xml version=\"1.0\" encoding=\"utf-8\" ?>".data

def copyrightLine : List Char := "<body copyright=\"All data copyright.\">".data

def lastTimeLine : List Char := "<lastTime time=\"5000\"/>".data

def vehLine : List Char :=
  "<vehicle id=\"1\" routeTag=\"A\" lat=\"1.5\" lon=\"2.5\" secsSinceReport=\"2\" heading=\"9\" speedKmHr=\"3\"/>".data

def errLine : List Char :=
  "<Error shouldRetry=\"true\"> something bad </Error>".data

def errCloseLine : List Char := "</Error>".data

def bodyCloseLine : List Char := "</body>".data

/-- The worked example of C2: `lastTime time="5000"` and one vehicle with
`secsSinceReport="2"`. -/
def exBody : List (List Char) :=
  [xmlHeaderLine, copyrightLine, vehLine, lastTimeLine, bodyCloseLine]

/-- The decoded record of `exBody`: absolute timestamp `7 - 2 = 5`. -/
def exLoc : vehicle_location := ⟨5, 1, "A", none, 3 / 2, 5 / 2, 9, 3⟩

/-- The same single-vehicle record with its relative timestamp, as it stands
just before the batch is finalized. -/
def c2rel : vehicle_location := ⟨2, 1, "A", none, 3 / 2, 5 / 2, 9, 3⟩

/-- A body with a truncated header segment followed by a complete one. -/
def twoHeaderBody : List (List Char) :=
  [xmlHeaderLine, copyrightLine, xmlHeaderLine, copyrightLine, vehLine,
   lastTimeLine, bodyCloseLine]

/-- An error batch: third line `<Error shouldRetry="true">…`. -/
def errBody : List (List Char) :=
  [xmlHeaderLine, copyrightLine, errLine, errCloseLine, bodyCloseLine]

/-- A body with zero vehicle lines. -/
def noVehicleBody : List (List Char) :=
  [xmlHeaderLine, copyrightLine, lastTimeLine, bodyCloseLine]

/-- A vehicle line that matches the spec's shape (all required keys present,
no repeats, symmetric quoting) but whose first attribute is not `id`. -/
def c7line : List Char :=
  "<vehicle routeTag=\"A\" id=\"1\" lat=\"1.5\" lon=\"2.5\" secsSinceReport=\"2\" heading=\"9\" speedKmHr=\"3\"/>".data

/-- A full body whose only interior line is `c7line`. -/
def c7body : List (List Char) :=
  [xmlHeaderLine, copyrightLine, c7line, lastTimeLine, bodyCloseLine]

/-- A concrete float serializer for witnesses and counterexamples: renders
the numerator followed by `.0` (exact for integral rationals). -/
def fstrEx : ℚ → List Char := fun q => intToChars q.num ++ ['.', '0']

/-- A record with a present-but-empty direction tag. -/
def c9bad : vehicle_location := ⟨5, 1, "A", some emptyTag, 3, 4, 9, 3⟩

/-- What `c9bad` becomes after one CSV round trip: the empty `dir` field is
read back as the absent value. -/
def c9dec : vehicle_location := ⟨5, 1, "A", none, 3, 4, 9, 3⟩

/-- A record that survives the round trip. -/
def c9w : vehicle_location := ⟨5, 1, "A", some outTag, 3, 4, 9, 3⟩

/-! ## Lemmas about the Deduplicator -/

/-- Every record is a duplicate of itself. -/
lemma isDup_self (loc : vehicle_location) : isDup loc loc = true := by
  simp [isDup]

lemma lastN_length_le {α : Type} (n : ℕ) (l : List α) : (lastN n l).length ≤ n := by
  simp [lastN]
  omega

lemma lastN_nil {α : Type} (n : ℕ) : lastN n ([] : List α) = [] := by
  simp [lastN]

/-- Appending to a capped history window commutes with taking the window of
the appended list. -/
lemma push3_lastN (l : List vehicle_location) (x : vehicle_location) :
    push3 (lastN 3 l) x = lastN 3 (l ++ [x]) := by
  unfold push3 lastN
  by_cases h : 3 ≤ l.length
  · have hc : 3 < (l.drop (l.length - 3) ++ [x]).length := by
      simp
      omega
    rw [if_pos hc, List.length_append, List.length_cons, List.length_nil]
    have h1 : l.length + 1 - 3 = (l.length - 3) + 1 := by omega
    rw [h1, List.drop_append_of_le_length (by omega)]
    have h2 : l.drop (l.length - 3 + 1) = (l.drop (l.length - 3)).tail := by
      rw [← List.drop_one, List.drop_drop]
    rw [h2, List.tail_append_of_ne_nil]
    intro hnil
    have hlen := congrArg List.length hnil
    simp at hlen
    omega
  · have hc : ¬3 < (l.drop (l.length - 3) ++ [x]).length := by
      simp
      omega
    have h0 : l.length - 3 = 0 := by omega
    rw [if_neg hc, h0, List.drop_zero, List.length_append, List.length_cons,
      List.length_nil]
    have h1 : l.length + 1 - 3 = 0 := by omega
    rw [h1, List.drop_zero]

/-- The last element of the history after an accept is the accepted record. -/
lemma push3_getLast (prevs : List vehicle_location) (loc : vehicle_location) :
    (push3 prevs loc).getLast? = some loc := by
  unfold push3
  split
  · cases prevs with
    | nil => simp_all
    | cons a t => simp [List.getLast?_concat]
  · simp [List.getLast?_concat]

/-- Invariant of `Archive.locations`: if each history list is the last-three
window of the per-vehicle accepted list so far, it stays that way; the final
history for `v` is the last-three window of all accepted records for `v`. -/
lemma locations_run_hist (input : List (ℚ × vehicle_location))
    (hist : ℤ → List vehicle_location) (E : ℤ → List vehicle_location)
    (hE : ∀ v, hist v = lastN 3 (E v)) (v : ℤ) :
    (locations_run hist input).1 v =
      lastN 3 (E v ++ ((locations_run hist input).2.1).filter
        (fun l => l.id == v)) := by
  induction input generalizing hist E with
  | nil => simpa [locations_run] using hE v
  | cons p rest ih =>
    obtain ⟨qt, loc⟩ := p
    by_cases h : ((hist loc.id).any fun prev => isDup loc prev) = true
    · simp only [locations_run, locations_step, h, if_true, List.nil_append]
      exact ih hist E hE
    · have h' : ((hist loc.id).any fun prev => isDup loc prev) = false := by
        simpa using h
      simp only [locations_run, locations_step, h', Bool.false_eq_true,
        if_false, List.cons_append, List.nil_append, List.filter_cons]
      have hE' : ∀ w, updateHist hist loc.id (push3 (hist loc.id) loc) w =
          lastN 3 ((fun w => if w = loc.id then E w ++ [loc] else E w) w) := by
        intro w
        by_cases hw : w = loc.id
        · rw [hw]
          simp only [updateHist, if_pos rfl, if_true]
          rw [hE loc.id, push3_lastN]
        · simp only [updateHist, if_neg hw, hE w]
      have hrec := ih (updateHist hist loc.id (push3 (hist loc.id) loc))
        (fun w => if w = loc.id then E w ++ [loc] else E w) hE'
      by_cases hv : loc.id = v
      · have hb : (loc.id == v) = true := by simp [hv]
        rw [hb, if_pos rfl, hrec, hv]
        simp only [if_pos rfl, if_true, List.append_assoc, List.singleton_append]
      · have hb : (loc.id == v) = false := by simp [hv]
        rw [hb]
        simp only [Bool.false_eq_true, if_false]
        rw [hrec]
        have : ¬v = loc.id := fun hvv => hv hvv.symm
        simp only [if_neg this]

/-- The emitted stream is a sublist of the consumed stream. -/
lemma locations_run_sublist (hist : ℤ → List vehicle_location)
    (input : List (ℚ × vehicle_location)) :
    ((locations_run hist input).2.1).Sublist (input.map Prod.snd) := by
  induction input generalizing hist with
  | nil => simp [locations_run]
  | cons p rest ih =>
    obtain ⟨qt, loc⟩ := p
    by_cases h : ((hist loc.id).any fun prev => isDup loc prev) = true
    · simp only [locations_run, locations_step, h, if_true, List.nil_append,
        List.map_cons]
      exact (ih hist).cons loc
    · have h' : ((hist loc.id).any fun prev => isDup loc prev) = false := by
        simpa using h
      simp only [locations_run, locations_step, h', Bool.false_eq_true,
        if_false, List.cons_append, List.nil_append, List.map_cons]
      exact (ih _).cons₂ loc

/-- Outputs of the Deduplicator satisfy the acceptance trace condition. -/
lemma locations_run_accepts (input : List (ℚ × vehicle_location)) (v : ℤ)
    (hist : ℤ → List vehicle_location) (E : List vehicle_location)
    (hids : ∀ p ∈ input, (Prod.snd p).id = v) (hh : hist v = lastN 3 E) :
    accepts_from E ((locations_run hist input).2.1) := by
  induction input generalizing hist E with
  | nil => simp [locations_run, accepts_from]
  | cons p rest ih =>
    obtain ⟨qt, loc⟩ := p
    have hid : loc.id = v := hids (qt, loc) (by simp)
    have hrest : ∀ p ∈ rest, (Prod.snd p).id = v := fun p hp =>
      hids p (List.mem_cons_of_mem _ hp)
    by_cases h : ((hist loc.id).any fun prev => isDup loc prev) = true
    · simp only [locations_run, locations_step, h, if_true, List.nil_append]
      exact ih hist E hrest hh
    · have h' : ((hist loc.id).any fun prev => isDup loc prev) = false := by
        simpa using h
      simp only [locations_run, locations_step, h', Bool.false_eq_true,
        if_false, List.cons_append, List.nil_append]
      rw [accepts_from]
      constructor
      · intro prev hprev
        have hmem : prev ∈ hist loc.id := by
          rw [hid, hh]
          exact hprev
        have := List.any_eq_false.mp h' prev hmem
        simpa using this
      · refine ih (updateHist hist loc.id (push3 (hist loc.id) loc))
          (E ++ [loc]) hrest ?_
        simp only [updateHist, hid, if_pos rfl, if_true]
        rw [← hid, ← push3_lastN, ← hh, hid]

/-- A stream satisfying the acceptance trace condition is accepted in full. -/
lemma run_accepts_all (O : List vehicle_location) (v : ℤ)
    (hist : ℤ → List vehicle_location) (E : List vehicle_location)
    (hids : ∀ o ∈ O, o.id = v) (hh : hist v = lastN 3 E)
    (hacc : accepts_from E O) :
    (locations_run hist (O.map (fun l => ((0 : ℚ), l)))).2.1 = O := by
  induction O generalizing hist E with
  | nil => simp [locations_run]
  | cons o rest ih =>
    have hid : o.id = v := hids o (by simp)
    rw [accepts_from] at hacc
    obtain ⟨h1, h2⟩ := hacc
    have hany : ((hist o.id).any fun prev => isDup o prev) = false := by
      rw [hid, hh]
      exact List.any_eq_false.mpr (fun prev hp => by simp [h1 prev hp])
    simp only [List.map_cons, locations_run, locations_step, hany,
      Bool.false_eq_true, if_false, List.cons_append, List.nil_append,
      List.cons.injEq, true_and]
    refine ih (updateHist hist o.id (push3 (hist o.id) o)) (E ++ [o])
      (fun x hx => hids x (List.mem_cons_of_mem _ hx)) ?_ h2
    simp only [updateHist, hid, if_pos rfl, if_true]
    rw [← hid, ← push3_lastN, ← hh, hid]

/-! ## Claim theorems: Deduplicator -/

/-- C1: a record `L` processed by the Deduplicator is silently rejected (not
emitted, not appended to its history, no warning) exactly when some entry of
its per-id history satisfies the duplicate predicate (timestamps within 3
seconds, same route, positions within 1e-7, same speed, and same heading or
speed 0); in particular the second of two records for id 7, route "A",
speed 0, positions equal within 1e-7, timestamps 2.0 s apart and headings 10
and 95 is rejected. -/
theorem C1_reject_iff_dup :
    (∀ (hist : ℤ → List vehicle_location) (qt : ℚ) (loc : vehicle_location),
      ((locations_step hist qt loc).2.1 = [] ∧
       (locations_step hist qt loc).1 = hist ∧
       (locations_step hist qt loc).2.2 = []) ↔
      ∃ prev ∈ hist loc.id, isDup loc prev = true) ∧
    isDup c1r2 c1r1 = true ∧
    (locations_run emptyHist [(105, c1r1), (105, c1r2)]).2.1 = [c1r1] := by
  refine ⟨?_, by with_unfolding_all decide, by with_unfolding_all decide⟩
  intro hist qt loc
  by_cases h : ((hist loc.id).any fun prev => isDup loc prev) = true
  · have hstep : locations_step hist qt loc = (hist, [], []) := by
      simp only [locations_step, h, if_true]
    rw [hstep]
    constructor
    · intro _
      obtain ⟨x, hx, hd⟩ := List.any_eq_true.mp h
      exact ⟨x, hx, hd⟩
    · intro _
      exact ⟨rfl, rfl, rfl⟩
  · have h' : ((hist loc.id).any fun prev => isDup loc prev) = false := by
      simpa using h
    constructor
    · rintro ⟨he, -, -⟩
      exfalso
      simp only [locations_step, h', Bool.false_eq_true, if_false] at he
      simp at he
    · rintro ⟨prev, hmem, hdup⟩
      exfalso
      have := List.any_eq_false.mp h' prev hmem
      simp [hdup] at this

/-- C10: over any consumed stream (in processing order), the emitted accepted
sequence is a sublist of the consumed records: every emitted record is a
consumed record with all fields unchanged, each consumed record is emitted at
most once, and relative order is preserved. -/
theorem C10_emitted_sublist :
    ∀ (hist : ℤ → List vehicle_location) (input : List (ℚ × vehicle_location)),
      ((locations_run hist input).2.1).Sublist (input.map Prod.snd) :=
  locations_run_sublist

/-- C4: at every point of a Deduplicator run started from an empty history,
the history for any vehicle id is exactly the last-three window, in
acceptance order, of the accepted records for that id (so it never exceeds 3
entries); feeding four distinct non-duplicate records leaves exactly the last
three, and a fifth record that duplicates only the first is accepted because
the first is no longer in the window. -/
theorem C4_history_window :
    (∀ (input : List (ℚ × vehicle_location)) (v : ℤ),
      (locations_run emptyHist input).1 v =
        lastN 3 (((locations_run emptyHist input).2.1).filter
          (fun l => l.id == v)) ∧
      ((locations_run emptyHist input).1 v).length ≤ 3) ∧
    (locations_run emptyHist c4input4).1 1 = [c4s2, c4s3, c4s4] ∧
    (locations_run emptyHist c4input5).2.1 = [c4s1, c4s2, c4s3, c4s4, c4s5] ∧
    isDup c4s5 c4s1 = true := by
  refine ⟨?_, by with_unfolding_all decide, by with_unfolding_all decide,
    by with_unfolding_all decide⟩
  intro input v
  have hrun := locations_run_hist input emptyHist (fun _ => [])
    (fun _ => by simp [emptyHist, lastN]) v
  constructor
  · simpa using hrun
  · have h2 : (locations_run emptyHist input).1 v =
        lastN 3 (((locations_run emptyHist input).2.1).filter
          (fun l => l.id == v)) := by
      simpa using hrun
    rw [h2]
    exact lastN_length_le _ _

/-- C5: when the Deduplicator accepts a record whose per-id history is
non-empty and whose timestamp does not exceed the most recently appended
entry's timestamp, it emits exactly one out-of-order warning carrying the
batch's query time and the record's fields, and the record is nevertheless
emitted and appended to the history; processing continues (no error). -/
theorem C5_out_of_order_warning
    (hist : ℤ → List vehicle_location) (qt : ℚ) (loc p : vehicle_location)
    (hnodup : ((hist loc.id).any fun prev => isDup loc prev) = false)
    (hlast : (hist loc.id).getLast? = some p)
    (hle : loc.timestamp ≤ p.timestamp) :
    (locations_step hist qt loc).2.2 =
      [{ query_timestamp := qt, id := loc.id, route := loc.route,
         dir := loc.dir, lat := loc.lat, lon := loc.lon,
         secsSinceReport := qt - loc.timestamp, heading := loc.heading,
         speed := loc.speed }] ∧
    (locations_step hist qt loc).2.1 = [loc] ∧
    (locations_step hist qt loc).1 loc.id = push3 (hist loc.id) loc ∧
    ((locations_step hist qt loc).1 loc.id).getLast? = some loc := by
  have hstep : locations_step hist qt loc =
      (updateHist hist loc.id (push3 (hist loc.id) loc), [loc],
        [mkWarning qt loc]) := by
    simp only [locations_step, hnodup, Bool.false_eq_true, if_false, hlast,
      if_pos hle]
  rw [hstep]
  refine ⟨rfl, rfl, ?_, ?_⟩
  · simp [updateHist]
  · simp [updateHist, push3_getLast]

/-- Witness for C5 at a concrete history and record. -/
theorem C5_witness :
    (locations_step c5hist 60 c5loc).2.2 =
      [{ query_timestamp := 60, id := c5loc.id, route := c5loc.route,
         dir := c5loc.dir, lat := c5loc.lat, lon := c5loc.lon,
         secsSinceReport := 60 - c5loc.timestamp, heading := c5loc.heading,
         speed := c5loc.speed }] ∧
    (locations_step c5hist 60 c5loc).2.1 = [c5loc] ∧
    (locations_step c5hist 60 c5loc).1 c5loc.id =
      push3 (c5hist c5loc.id) c5loc ∧
    ((locations_step c5hist 60 c5loc).1 c5loc.id).getLast? = some c5loc :=
  C5_out_of_order_warning c5hist 60 c5loc c5prev
    (by with_unfolding_all decide) (by with_unfolding_all decide)
    (by with_unfolding_all decide)

/-- C8: re-running the Deduplicator, from an empty history, over its own
accepted output for a single vehicle yields exactly that sequence again (no
record is rejected). -/
theorem C8_rerun_identity (input : List (ℚ × vehicle_location)) (v : ℤ)
    (h : ∀ p ∈ input, (Prod.snd p).id = v) :
    (locations_run emptyHist
      (((locations_run emptyHist input).2.1).map (fun l => ((0 : ℚ), l)))).2.1 =
      (locations_run emptyHist input).2.1 := by
  have hacc := locations_run_accepts input v emptyHist [] h
    (by simp [emptyHist, lastN])
  have hmem : ∀ o ∈ (locations_run emptyHist input).2.1, o.id = v := by
    intro o ho
    have hsub := locations_run_sublist emptyHist input
    obtain ⟨p, hp, hpe⟩ := List.mem_map.mp (hsub.subset ho)
    rw [← hpe]
    exact h p hp
  exact run_accepts_all _ v emptyHist [] hmem (by simp [emptyHist, lastN]) hacc

/-- Witness for C8 on a concrete two-record single-vehicle stream. -/
theorem C8_witness :
    (locations_run emptyHist
      (((locations_run emptyHist c8input).2.1).map (fun l => ((0 : ℚ), l)))).2.1 =
      (locations_run emptyHist c8input).2.1 :=
  C8_rerun_identity c8input 9 (by with_unfolding_all decide)

/-! ## Lemmas about the header-retention step -/

lemma getLast?_cons_of_some {α : Type} (a x : α) (l : List α)
    (h : l.getLast? = some x) : (a :: l).getLast? = some x := by
  cases l with
  | nil => simp at h
  | cons b t =>
    rw [List.getLast?_cons_cons]
    exact h

/-- If no line of `body` is a header line, the comprehension is empty. -/
lemma idxs_aux_nil (body : List (List Char)) (n : ℕ)
    (h : ∀ l ∈ body, header_line l = false) :
    ((idxFrom n body).filter (fun p => header_line p.2)).map Prod.fst = [] := by
  induction body generalizing n with
  | nil => rfl
  | cons a t ih =>
    simp only [idxFrom, List.filter_cons]
    have ha : header_line (n, a).2 = false := h a (by simp)
    rw [ha]
    simp only [Bool.false_eq_true, if_false]
    exact ih (n + 1) (fun l hl => h l (by simp [hl]))

/-- If line `i` is a header line and no later line is, the comprehension's
last element is `n + i`. -/
lemma idxs_aux_getLast (body : List (List Char)) (i : ℕ) (n : ℕ)
    (h : i < body.length) (hh : header_line (body.get ⟨i, h⟩) = true)
    (hlast : ∀ j (hj : j < body.length), i < j →
      header_line (body.get ⟨j, hj⟩) = false) :
    (((idxFrom n body).filter (fun p => header_line p.2)).map
      Prod.fst).getLast? = some (n + i) := by
  induction body generalizing n i with
  | nil => simp at h
  | cons a t ih =>
    cases i with
    | zero =>
      have hh' : header_line a = true := hh
      have ht : ∀ l ∈ t, header_line l = false := by
        intro l hl
        obtain ⟨⟨j, hj⟩, hl⟩ := List.mem_iff_get.mp hl
        have := hlast (j + 1) (by simpa using Nat.succ_lt_succ hj) (by omega)
        rwa [show ((a :: t).get ⟨j + 1, _⟩) = t.get ⟨j, hj⟩ from rfl, hl] at this
      simp only [idxFrom, List.filter_cons, hh', if_true]
      rw [List.map_cons, idxs_aux_nil t (n + 1) ht]
      simp
    | succ j =>
      have hj' : j < t.length := by simpa using h
      have hh' : header_line (t.get ⟨j, hj'⟩) = true := hh
      have hlast' : ∀ k (hk : k < t.length), j < k →
          header_line (t.get ⟨k, hk⟩) = false := by
        intro k hk hjk
        have := hlast (k + 1) (by simpa using Nat.succ_lt_succ hk) (by omega)
        rwa [show ((a :: t).get ⟨k + 1, _⟩) = t.get ⟨k, hk⟩ from rfl] at this
      have htail := ih j (n + 1) hj' hh' hlast'
      have hgoal : n + (j + 1) = (n + 1) + j := by omega
      rw [hgoal]
      simp only [idxFrom, List.filter_cons]
      by_cases ha : header_line a = true
      · rw [ha]
        simp only [if_true, List.map_cons]
        exact getLast?_cons_of_some _ _ _ htail
      · have ha' : header_line a = false := by simpa using ha
        rw [ha']
        simp only [Bool.false_eq_true, if_false]
        exact htail

/-- The `xml_header_idxs` version of `idxs_aux_getLast`. -/
lemma xml_header_idxs_getLast (body : List (List Char)) (i : ℕ)
    (h : i < body.length) (hh : header_line (body.get ⟨i, h⟩) = true)
    (hlast : ∀ j (hj : j < body.length), i < j →
      header_line (body.get ⟨j, hj⟩) = false) :
    (xml_header_idxs body).getLast? = some i := by
  have := idxs_aux_getLast body i 0 h hh hlast
  simpa [xml_header_idxs] using this

/-! ## Claim theorems: ResponseParser -/

/-- C3: parsing a raw body keeps only the suffix starting at the last line
whose edge-trimmed text ends with the XML header marker and decodes using
only that suffix; a body with no header line fails.  A body with two header
lines and one valid segment decodes from the second header onward. -/
theorem C3_last_header_retention :
    (∀ body : List (List Char), (∀ l ∈ body, header_line l = false) →
      parse_body body = .error ()) ∧
    (∀ (body : List (List Char)) (i : ℕ) (h : i < body.length),
      header_line (body.get ⟨i, h⟩) = true →
      (∀ j (hj : j < body.length), i < j →
        header_line (body.get ⟨j, hj⟩) = false) →
      parse_body body = parse_retained (body.drop i)) ∧
    parse_body twoHeaderBody = parse_retained (twoHeaderBody.drop 2) ∧
    parse_body twoHeaderBody = .ok (some (7, [exLoc])) := by
  refine ⟨?_, ?_, by with_unfolding_all decide, by with_unfolding_all decide⟩
  · intro body hnone
    have : xml_header_idxs body = [] := by
      simpa [xml_header_idxs] using idxs_aux_nil body 0 hnone
    simp [parse_body, this]
  · intro body i h hh hlast
    have hidx := xml_header_idxs_getLast body i h hh hlast
    simp [parse_body, hidx]

/-- Witness for C3's universally quantified retention statement, applied to
the two-header body at the index of its second header line. -/
theorem C3_witness :
    parse_body twoHeaderBody = parse_retained (twoHeaderBody.drop 2) ∧
    parse_body twoHeaderBody = .ok (some (7, [exLoc])) :=
  ⟨C3_last_header_retention.2.1 twoHeaderBody 2 (by simp [twoHeaderBody])
    (by with_unfolding_all decide)
    (by with_unfolding_all decide),
   C3_last_header_retention.2.2.2⟩

/-- C2: for a non-error body, the batch's query timestamp is
`last_time + m` where `m` is the minimum relative timestamp, every emitted
location's timestamp is `query_timestamp` minus its own relative timestamp
(all other fields unchanged), and a body with zero vehicle lines emits no
batch; concretely, `lastTime time="5000"` with one vehicle at
`secsSinceReport="2"` gives `last_time = 5`, `query_timestamp = 7` and a
decoded timestamp of `5`. -/
theorem C2_query_timestamp :
    (∀ (lt : ℚ) (vlocs : List vehicle_location) (m : ℚ),
      listMinQ (vlocs.map (fun loc => loc.timestamp)) = some m →
      finalize lt vlocs = some (lt + m,
        vlocs.map (fun loc => { loc with timestamp := lt + m - loc.timestamp }))) ∧
    (∀ (lt : ℚ) (vlocs : List vehicle_location), vlocs ≠ [] →
      (finalize lt vlocs).isSome = true) ∧
    (∀ lt : ℚ, finalize lt [] = none) ∧
    parse_body exBody = .ok (some (7, [exLoc])) ∧
    parse_body noVehicleBody = .ok none := by
  refine ⟨?_, ?_, fun lt => rfl, by with_unfolding_all decide,
    by with_unfolding_all decide⟩
  · intro lt vlocs m hmin
    simp [finalize, hmin]
  · intro lt vlocs hne
    cases vlocs with
    | nil => exact absurd rfl hne
    | cons a t => simp [finalize, listMinQ]

/-- Witness for C2's finalization statement on the concrete one-vehicle
batch. -/
theorem C2_witness :
    finalize 5 [c2rel] = some (5 + 2,
      [c2rel].map (fun loc => { loc with timestamp := 5 + 2 - loc.timestamp })) ∧
    (finalize 5 [c2rel]).isSome = true :=
  ⟨C2_query_timestamp.1 5 [c2rel] 2 (by with_unfolding_all decide),
   C2_query_timestamp.2.1 5 [c2rel] (by with_unfolding_all decide)⟩

/-- C6: a retained segment that passes the copyright-line and closing-line
checks and whose third line starts with `<Error shouldRetry="` is an error
batch: if the second-to-last line (edge-trimmed) equals `</Error>` the parser
returns no batch and raises no error, otherwise parsing fails; concretely an
error body yields `.ok none`. -/
theorem C6_error_batch :
    (∀ (seg : List (List Char)) (l1 l2 lm2 ll : List Char),
      seg.get? 1 = some l1 →
      (hasPrefixL copyMark (pyStrip l1) &&
        hasSuffixL quoteGtMark (pyStrip l1)) = true →
      seg.getLast? = some ll →
      pyStrip ll = bodyCloseMark →
      seg.get? 2 = some l2 →
      hasPrefixL errMark (pyStrip l2) = true →
      seg.get? (seg.length - 2) = some lm2 →
      ((pyStrip lm2 = errCloseMark → parse_retained seg = .ok none) ∧
       (pyStrip lm2 ≠ errCloseMark → parse_retained seg = .error ()))) ∧
    parse_body errBody = .ok none := by
  refine ⟨?_, by with_unfolding_all decide⟩
  intro seg l1 l2 lm2 ll h1 hcopy hll hbody h2 herr hm2
  constructor
  · intro he
    simp only [parse_retained, h1, hcopy, hll, hbody, h2, hm2, herr, he,
      eq_self_iff_true, if_true]
  · intro he
    simp only [parse_retained, h1, hcopy, hll, hbody, h2, hm2, herr,
      eq_self_iff_true, if_true, if_neg he]

/-- Witness for C6's universally quantified statement, applied to the
concrete error body (which is its own retained segment). -/
theorem C6_witness :
    parse_retained errBody = .ok none ∧ parse_body errBody = .ok none := by
  refine ⟨?_, C6_error_batch.2⟩
  have h := C6_error_batch.1 errBody copyrightLine errLine errCloseLine
    bodyCloseLine rfl (by with_unfolding_all decide) rfl
    (by with_unfolding_all decide) rfl (by with_unfolding_all decide) rfl
  exact h.1 (by with_unfolding_all decide)

/-! ## Lemmas about attribute parsing (claim C7) -/

lemma alookup_append_none {α β : Type} [DecidableEq α] (k : α)
    (l1 l2 : List (α × β)) :
    alookup k (l1 ++ l2) = none ↔ alookup k l1 = none ∧ alookup k l2 = none := by
  induction l1 with
  | nil => simp [alookup]
  | cons p t ih =>
    obtain ⟨a, b⟩ := p
    by_cases ha : a = k
    · simp [alookup, ha]
    · simp [alookup, ha, ih]

lemma alookup_singleton_none {α β : Type} [DecidableEq α] (k a : α) (b : β) :
    alookup k [(a, b)] = none ↔ ¬a = k := by
  by_cases h : a = k <;> simp [alookup, h]

lemma alookup_isSome_iff {α β : Type} [DecidableEq α] (k : α)
    (l : List (α × β)) :
    (alookup k l).isSome = true ↔ k ∈ l.map Prod.fst := by
  induction l with
  | nil => simp [alookup]
  | cons p t ih =>
    obtain ⟨a, b⟩ := p
    by_cases ha : a = k
    · simp [alookup, ha]
    · simp only [alookup, ha, if_false, List.map_cons, List.mem_cons, ih]
      constructor
      · intro hh
        exact Or.inr hh
      · rintro (hh | hh)
        · exact absurd hh.symm ha
        · exact hh

lemma alookup_eq_none_iff {α β : Type} [DecidableEq α] (k : α)
    (l : List (α × β)) :
    alookup k l = none ↔ ¬k ∈ l.map Prod.fst := by
  rw [← alookup_isSome_iff]
  cases alookup k l <;> simp

lemma hasPrefixL_iff (p l : List Char) : hasPrefixL p l = true ↔ p <+: l := by
  induction p generalizing l with
  | nil => simp [hasPrefixL]
  | cons a as ih =>
    cases l with
    | nil =>
      simp [hasPrefixL]
    | cons b bs =>
      simp [hasPrefixL, List.cons_prefix_cons, ih]

lemma hasPrefixL_trans_of (p q l : List Char) (hpq : hasPrefixL p q = true)
    (hql : hasPrefixL q l = true) : hasPrefixL p l = true := by
  rw [hasPrefixL_iff] at *
  exact hpq.trans hql

lemma hasSuffixL_trans_of (p q l : List Char) (hpq : hasSuffixL p q = true)
    (hql : hasSuffixL q l = true) : hasSuffixL p l = true := by
  unfold hasSuffixL at *
  exact hasPrefixL_trans_of _ _ _ hpq hql

/-- Full characterization of the attribute loop: it succeeds exactly when
every token splits as a symmetrically quoted `key="value"` pair, no key
repeats, and no key collides with the accumulator; the result appends the
decoded pairs, in order, to the accumulator. -/
lemma parse_attr_tokens_eq (toks : List (List Char))
    (acc : List (List Char × List Char)) :
    parse_attr_tokens toks acc =
      if (∀ tok ∈ toks, token_ok tok = true) ∧ (toks.map token_key).Nodup ∧
          (∀ k ∈ toks.map token_key, alookup k acc = none) then
        some (acc ++ toks.map (fun t => (token_key t, stripQuotes (token_val t))))
      else none := by
  induction toks generalizing acc with
  | nil => simp [parse_attr_tokens]
  | cons tok rest ih =>
    rcases hsp : splitOnChar '=' tok with _ | ⟨name, _ | ⟨value, _ | ⟨x, xs⟩⟩⟩
    · simp only [parse_attr_tokens, hsp]
      rw [if_neg]
      rintro ⟨hall, -, -⟩
      have h1 := hall tok (List.mem_cons_self tok rest)
      simp only [token_ok, hsp] at h1
      exact absurd h1 (by decide)
    · simp only [parse_attr_tokens, hsp]
      rw [if_neg]
      rintro ⟨hall, -, -⟩
      have h1 := hall tok (List.mem_cons_self tok rest)
      simp only [token_ok, hsp] at h1
      exact absurd h1 (by decide)
    · -- the `[name, value]` shape
      have hkey : token_key tok = name := by simp [token_key, hsp]
      have hval : token_val tok = value := by simp [token_val, hsp]
      simp only [parse_attr_tokens, hsp]
      by_cases hacc : (alookup name acc).isSome = true
      · rw [if_pos hacc, if_neg]
        rintro ⟨-, -, hnone⟩
        have h0 := hnone name (by simp [hkey])
        rw [h0] at hacc
        simp at hacc
      · have haccn : alookup name acc = none :=
          Option.not_isSome_iff_eq_none.mp (by simpa using hacc)
        rw [if_neg hacc]
        cases hh : value.head? with
        | none =>
          simp only [hh]
          rw [if_neg]
          rintro ⟨hall, -, -⟩
          have h1 := hall tok (List.mem_cons_self tok rest)
          simp only [token_ok, hsp, hh] at h1
          simp at h1
        | some c1 =>
          cases hl : value.getLast? with
          | none =>
            simp only [hh, hl]
            rw [if_neg]
            rintro ⟨hall, -, -⟩
            have h1 := hall tok (List.mem_cons_self tok rest)
            simp only [token_ok, hsp, hh, hl] at h1
            simp at h1
          | some c2 =>
            simp only [hh, hl]
            by_cases hq : c1 = '"' ∧ c2 = '"'
            · obtain ⟨hq1, hq2⟩ := hq
              subst hq1
              subst hq2
              rw [if_pos (by simp), ih (acc ++ [(name, stripQuotes value)])]
              have htokok : token_ok tok = true := by
                simp [token_ok, hsp, hh, hl]
              have hnm : ∀ k, alookup k (acc ++ [(name, stripQuotes value)]) =
                  none ↔ (alookup k acc = none ∧ ¬name = k) := by
                intro k
                rw [alookup_append_none, alookup_singleton_none]
              have hiff : ((∀ t ∈ rest, token_ok t = true) ∧
                    (rest.map token_key).Nodup ∧
                    ∀ k ∈ rest.map token_key,
                      alookup k (acc ++ [(name, stripQuotes value)]) = none) ↔
                  ((∀ t ∈ tok :: rest, token_ok t = true) ∧
                    ((tok :: rest).map token_key).Nodup ∧
                    ∀ k ∈ (tok :: rest).map token_key,
                      alookup k acc = none) := by
                simp only [List.map_cons, List.forall_mem_cons,
                  List.nodup_cons, hkey]
                constructor
                · rintro ⟨hro, hnd, hlk⟩
                  refine ⟨⟨htokok, hro⟩, ⟨?_, hnd⟩, haccn, ?_⟩
                  · intro hmem
                    exact ((hnm name).mp (hlk name hmem)).2 rfl
                  · intro k hk
                    exact ((hnm k).mp (hlk k hk)).1
                · rintro ⟨⟨-, hro⟩, ⟨hnmem, hnd⟩, -, hlk⟩
                  refine ⟨hro, hnd, ?_⟩
                  intro k hk
                  rw [hnm k]
                  refine ⟨hlk k hk, ?_⟩
                  intro he
                  apply hnmem
                  rw [he]
                  exact hk
              by_cases hC : (∀ t ∈ tok :: rest, token_ok t = true) ∧
                  ((tok :: rest).map token_key).Nodup ∧
                  ∀ k ∈ (tok :: rest).map token_key, alookup k acc = none
              · rw [if_pos (hiff.mpr hC), if_pos hC, List.map_cons, hkey, hval]
                simp [List.append_assoc]
              · rw [if_neg (fun hc => hC (hiff.mp hc)), if_neg hC]
            · rw [if_neg (by simpa [not_and] using hq), if_neg]
              rintro ⟨hall, -, -⟩
              have h1 := hall tok (List.mem_cons_self tok rest)
              simp only [token_ok, hsp, hh, hl] at h1
              simp only [Bool.and_eq_true, decide_eq_true_eq,
                Option.some.injEq] at h1
              exact hq h1
    · simp only [parse_attr_tokens, hsp]
      rw [if_neg]
      rintro ⟨hall, -, -⟩
      have h1 := hall tok (List.mem_cons_self tok rest)
      simp only [token_ok, hsp] at h1
      exact absurd h1 (by decide)

lemma contains_of_mem {α : Type} [BEq α] [LawfulBEq α] {a : α} {l : List α}
    (h : a ∈ l) : l.contains a = true := by
  rw [List.contains_iff_exists_mem_beq]
  exact ⟨a, h, by simp⟩

lemma mem_of_contains {α : Type} [BEq α] [LawfulBEq α] {a : α} {l : List α}
    (h : l.contains a = true) : a ∈ l := by
  rw [List.contains_iff_exists_mem_beq] at h
  obtain ⟨x, hx, hbeq⟩ := h
  rwa [eq_of_beq hbeq]

/-! ## Claim theorems: vehicle-line decoding (C7) -/

/-- C7 counterexample: a line of the spec's shape (all required keys present,
no repeats, values symmetrically quoted) whose first attribute is not `id` is
nevertheless refused by the code, and a body containing it fails to parse. -/
theorem C7_counterexample :
    claim_vehicle_shape c7line = true ∧ parse_vehicle_line c7line = none ∧
    parse_body c7body = .error () := by
  refine ⟨by with_unfolding_all decide, by with_unfolding_all decide,
    by with_unfolding_all decide⟩

/-- C7 (amended): a vehicle line decodes successfully exactly when it matches
the shape the spec describes AND in addition (a) the edge-trimmed line starts
with `<vehicle id="` (the `id` attribute comes first), (b) it ends with
`"/>`, and (c) the required numeric attribute values parse (`secsSinceReport`,
`id`, `heading`, `speedKmHr` as integers; `lat`, `lon` as floats); moreover a
missing `dirTag` yields `dir = none` and a present one is taken verbatim. -/
theorem C7_amended_vehicle_line :
    (∀ line : List Char,
      (parse_vehicle_line line).isSome = true ↔
        (claim_vehicle_shape line = true ∧
         hasPrefixL vehicleIdMark (pyStrip line) = true ∧
         hasSuffixL quoteSlashGtMark (pyStrip line) = true ∧
         vehicle_line_numerics line = true)) ∧
    (∀ (line : List Char) (loc : vehicle_location),
      parse_vehicle_line line = some loc →
      loc.dir = (attr_value line dirKey).map String.mk) := by
  have hdir : ∀ (line : List Char) (loc : vehicle_location),
      parse_vehicle_line line = some loc →
      loc.dir = (attr_value line dirKey).map String.mk := by
    intro line loc hp
    cases hla : line_attrs line with
    | none => simp [parse_vehicle_line, hla] at hp
    | some attrs =>
      cases h1 : (alookup secsKey attrs).bind pyInt with
      | none => simp [parse_vehicle_line, hla, h1] at hp
      | some s1 =>
      cases h2 : (alookup idKey attrs).bind pyInt with
      | none => simp [parse_vehicle_line, hla, h1, h2] at hp
      | some s2 =>
      cases h3 : alookup routeKey attrs with
      | none => simp [parse_vehicle_line, hla, h1, h2, h3] at hp
      | some r =>
      cases h4 : (alookup latKey attrs).bind pyFloat with
      | none => simp [parse_vehicle_line, hla, h1, h2, h3, h4] at hp
      | some la =>
      cases h5 : (alookup lonKey attrs).bind pyFloat with
      | none => simp [parse_vehicle_line, hla, h1, h2, h3, h4, h5] at hp
      | some lo =>
      cases h6 : (alookup headingKey attrs).bind pyInt with
      | none => simp [parse_vehicle_line, hla, h1, h2, h3, h4, h5, h6] at hp
      | some hd =>
      cases h7 : (alookup speedKey attrs).bind pyInt with
      | none => simp [parse_vehicle_line, hla, h1, h2, h3, h4, h5, h6, h7] at hp
      | some sp =>
        simp only [parse_vehicle_line, hla, h1, h2, h3, h4, h5, h6, h7,
          Option.some.injEq] at hp
        rw [← hp]
        simp [attr_value, hla]
  refine ⟨?_, hdir⟩
  intro line
  by_cases hpre : hasPrefixL vehicleIdMark (pyStrip line) = true
  swap
  · have hpre' : hasPrefixL vehicleIdMark (pyStrip line) = false := by
      simpa using hpre
    have hla : line_attrs line = none := by
      simp [line_attrs, hpre']
    refine iff_of_false (by simp [parse_vehicle_line, hla]) ?_
    rintro ⟨-, hp, -, -⟩
    exact hpre hp
  by_cases hsuf : hasSuffixL quoteSlashGtMark (pyStrip line) = true
  swap
  · have hsuf' : hasSuffixL quoteSlashGtMark (pyStrip line) = false := by
      simpa using hsuf
    have hla : line_attrs line = none := by
      simp [line_attrs, hsuf']
    refine iff_of_false (by simp [parse_vehicle_line, hla]) ?_
    rintro ⟨-, -, hp, -⟩
    exact hsuf hp
  have hla0 : line_attrs line =
      parse_attr_tokens (pyWsSplit (innerSlice (pyStrip line))) [] := by
    simp [line_attrs, hpre, hsuf]
  rw [parse_attr_tokens_eq] at hla0
  by_cases htok : (∀ tok ∈ pyWsSplit (innerSlice (pyStrip line)),
      token_ok tok = true) ∧
      ((pyWsSplit (innerSlice (pyStrip line))).map token_key).Nodup
  swap
  · have hla : line_attrs line = none := by
      rw [hla0, if_neg]
      rintro ⟨h1, h2, -⟩
      exact htok ⟨h1, h2⟩
    refine iff_of_false (by simp [parse_vehicle_line, hla]) ?_
    rintro ⟨hshape, -, -, -⟩
    apply htok
    simp only [claim_vehicle_shape, Bool.and_eq_true, List.all_eq_true,
      decide_eq_true_eq] at hshape
    exact ⟨hshape.2.1.1, hshape.2.1.2⟩
  obtain ⟨hok, hnd⟩ := htok
  have hattrs : line_attrs line =
      some ((pyWsSplit (innerSlice (pyStrip line))).map
        (fun t => (token_key t, stripQuotes (token_val t)))) := by
    rw [hla0, if_pos ⟨hok, hnd, fun k _ => rfl⟩]
    simp
  have hkeys : (((pyWsSplit (innerSlice (pyStrip line))).map
      (fun t => (token_key t, stripQuotes (token_val t)))).map Prod.fst) =
      (pyWsSplit (innerSlice (pyStrip line))).map token_key := by
    rw [List.map_map]
    rfl
  have hav : ∀ k, attr_value line k =
      alookup k ((pyWsSplit (innerSlice (pyStrip line))).map
        (fun t => (token_key t, stripQuotes (token_val t)))) := by
    intro k
    simp [attr_value, hattrs]
  have hmemkey : ∀ k : List Char,
      (alookup k ((pyWsSplit (innerSlice (pyStrip line))).map
        (fun t => (token_key t, stripQuotes (token_val t))))).isSome = true →
      k ∈ (pyWsSplit (innerSlice (pyStrip line))).map token_key := by
    intro k hk
    rw [alookup_isSome_iff, hkeys] at hk
    exact hk
  have hsome_of_bind : ∀ {β : Type} (o : Option (List Char))
      (f : List Char → Option β) (z : β), o.bind f = some z →
      o.isSome = true := by
    intro β o f z hz
    obtain ⟨w, hw, -⟩ := Option.bind_eq_some.mp hz
    simp [hw]
  constructor
  · intro hsome
    cases h1 : (alookup secsKey ((pyWsSplit (innerSlice (pyStrip line))).map
        (fun t => (token_key t, stripQuotes (token_val t))))).bind pyInt with
    | none => exact absurd hsome (by simp [parse_vehicle_line, hattrs, h1])
    | some s1 =>
    cases h2 : (alookup idKey ((pyWsSplit (innerSlice (pyStrip line))).map
        (fun t => (token_key t, stripQuotes (token_val t))))).bind pyInt with
    | none => exact absurd hsome (by simp [parse_vehicle_line, hattrs, h1, h2])
    | some s2 =>
    cases h3 : alookup routeKey ((pyWsSplit (innerSlice (pyStrip line))).map
        (fun t => (token_key t, stripQuotes (token_val t)))) with
    | none => exact absurd hsome (by simp [parse_vehicle_line, hattrs, h1, h2, h3])
    | some r =>
    cases h4 : (alookup latKey ((pyWsSplit (innerSlice (pyStrip line))).map
        (fun t => (token_key t, stripQuotes (token_val t))))).bind pyFloat with
    | none => exact absurd hsome (by simp [parse_vehicle_line, hattrs, h1, h2, h3, h4])
    | some la =>
    cases h5 : (alookup lonKey ((pyWsSplit (innerSlice (pyStrip line))).map
        (fun t => (token_key t, stripQuotes (token_val t))))).bind pyFloat with
    | none => exact absurd hsome (by simp [parse_vehicle_line, hattrs, h1, h2, h3, h4, h5])
    | some lo =>
    cases h6 : (alookup headingKey ((pyWsSplit (innerSlice (pyStrip line))).map
        (fun t => (token_key t, stripQuotes (token_val t))))).bind pyInt with
    | none => exact absurd hsome (by simp [parse_vehicle_line, hattrs, h1, h2, h3, h4, h5, h6])
    | some hd =>
    cases h7 : (alookup speedKey ((pyWsSplit (innerSlice (pyStrip line))).map
        (fun t => (token_key t, stripQuotes (token_val t))))).bind pyInt with
    | none => exact absurd hsome (by simp [parse_vehicle_line, hattrs, h1, h2, h3, h4, h5, h6, h7])
    | some sp =>
      refine ⟨?_, hpre, hsuf, ?_⟩
      · simp only [claim_vehicle_shape, Bool.and_eq_true, List.all_eq_true,
          decide_eq_true_eq]
        refine ⟨⟨?_, ?_⟩, ⟨hok, hnd⟩, ?_⟩
        · exact hasPrefixL_trans_of _ _ _ (by decide) hpre
        · exact hasSuffixL_trans_of _ _ _ (by decide) hsuf
        · intro k hk
          simp only [required_keys, List.mem_cons, List.not_mem_nil,
            or_false] at hk
          rcases hk with rfl | rfl | rfl | rfl | rfl | rfl | rfl
          · exact contains_of_mem (hmemkey _ (hsome_of_bind _ _ _ h1))
          · exact contains_of_mem (hmemkey _ (hsome_of_bind _ _ _ h2))
          · exact contains_of_mem (hmemkey _ (by simp [h3]))
          · exact contains_of_mem (hmemkey _ (hsome_of_bind _ _ _ h4))
          · exact contains_of_mem (hmemkey _ (hsome_of_bind _ _ _ h5))
          · exact contains_of_mem (hmemkey _ (hsome_of_bind _ _ _ h6))
          · exact contains_of_mem (hmemkey _ (hsome_of_bind _ _ _ h7))
      · simp only [vehicle_line_numerics, Bool.and_eq_true]
        refine ⟨⟨⟨⟨⟨?_, ?_⟩, ?_⟩, ?_⟩, ?_⟩, ?_⟩
        · rw [hav]
          simp [h1]
        · rw [hav]
          simp [h2]
        · rw [hav]
          simp [h4]
        · rw [hav]
          simp [h5]
        · rw [hav]
          simp [h6]
        · rw [hav]
          simp [h7]
  · rintro ⟨hshape, -, -, hnum⟩
    simp only [claim_vehicle_shape, Bool.and_eq_true, List.all_eq_true,
      decide_eq_true_eq] at hshape
    have hroutemem : routeKey ∈
        (pyWsSplit (innerSlice (pyStrip line))).map token_key :=
      mem_of_contains (hshape.2.2 routeKey (by simp [required_keys]))
    have hroute : (alookup routeKey
        ((pyWsSplit (innerSlice (pyStrip line))).map
          (fun t => (token_key t, stripQuotes (token_val t))))).isSome =
        true := by
      rw [alookup_isSome_iff, hkeys]
      exact hroutemem
    obtain ⟨r, hr⟩ := Option.isSome_iff_exists.mp hroute
    simp only [vehicle_line_numerics, Bool.and_eq_true, hav,
      Option.isSome_iff_exists] at hnum
    obtain ⟨⟨⟨⟨⟨⟨s1, h1⟩, ⟨s2, h2⟩⟩, ⟨la, hl4⟩⟩, ⟨lo, hl5⟩⟩, ⟨hd, hl6⟩⟩,
      ⟨sp, hl7⟩⟩ := hnum
    simp [parse_vehicle_line, hattrs, h1, h2, hr, hl4, hl5, hl6, hl7]

/-- Witness for C7's amended equivalence and `dirTag` clause on a concrete
well-formed line. -/
theorem C7_witness :
    (parse_vehicle_line vehLine).isSome = true ∧
    c2rel.dir = (attr_value vehLine dirKey).map String.mk :=
  ⟨(C7_amended_vehicle_line.1 vehLine).mpr
    ⟨by with_unfolding_all decide, by with_unfolding_all decide,
     by with_unfolding_all decide, by with_unfolding_all decide⟩,
   C7_amended_vehicle_line.2 vehLine c2rel (by with_unfolding_all decide)⟩

/-! ## Lemmas about integer rendering and CSV framing (claim C9) -/

/-- The characters produced for a decimal digit are digits, and are none of
the characters that matter to CSV framing. -/
lemma digitChar10_spec : ∀ d : ℕ, d < 10 →
    (digitChar10 d).isDigit = true ∧ digitVal (digitChar10 d) = d ∧
    digitChar10 d ≠ ',' ∧ digitChar10 d ≠ '\n' ∧ digitChar10 d ≠ '-' ∧
    digitChar10 d ≠ '+' ∧ digitChar10 d ≠ 'i' ∧
    pyIsSpace (digitChar10 d) = false := by
  decide

lemma natToRevChars_mem (n : ℕ) :
    ∀ c ∈ natToRevChars n, ∃ d : ℕ, d < 10 ∧ c = digitChar10 d := by
  induction n using Nat.strong_induction_on with
  | _ n ih =>
    rw [natToRevChars]
    split
    · intro c hc
      simp only [List.mem_singleton] at hc
      exact ⟨n, by omega, hc⟩
    · intro c hc
      rcases List.mem_cons.mp hc with hc | hc
      · exact ⟨n % 10, by omega, hc⟩
      · exact ih (n / 10) (Nat.div_lt_self (by omega) (by omega)) c hc

lemma natToRevChars_ne_nil (n : ℕ) : natToRevChars n ≠ [] := by
  rw [natToRevChars]
  split <;> simp

lemma foldr_natToRevChars (n : ℕ) :
    (natToRevChars n).foldr (fun c acc => 10 * acc + digitVal c) 0 = n := by
  induction n using Nat.strong_induction_on with
  | _ n ih =>
    rw [natToRevChars]
    split
    · rename_i h
      simp only [List.foldr_cons, List.foldr_nil]
      rw [(digitChar10_spec n h).2.1]
      omega
    · rename_i h
      simp only [List.foldr_cons]
      rw [ih (n / 10) (Nat.div_lt_self (by omega) (by omega)),
        (digitChar10_spec (n % 10) (by omega)).2.1]
      omega

lemma pyReadNat_natToChars (n : ℕ) : pyReadNat (natToChars n) = some n := by
  unfold pyReadNat natToChars
  have hdig : ((natToRevChars n).reverse.all Char.isDigit) = true := by
    rw [List.all_eq_true]
    intro c hc
    rw [List.mem_reverse] at hc
    obtain ⟨d, hd, rfl⟩ := natToRevChars_mem n c hc
    exact (digitChar10_spec d hd).1
  have hne : ((natToRevChars n).reverse.isEmpty) = false := by
    simp [natToRevChars_ne_nil n]
  rw [if_pos (by simp [hdig, hne])]
  rw [List.foldl_reverse, foldr_natToRevChars]

lemma dropWhile_eq_self_of (p : Char → Bool) (l : List Char)
    (h : ∀ c ∈ l, p c = false) : l.dropWhile p = l := by
  cases l with
  | nil => rfl
  | cons a t => simp [List.dropWhile_cons, h a (by simp)]

lemma pyStrip_eq_self (l : List Char)
    (h : ∀ c ∈ l, pyIsSpace c = false) : pyStrip l = l := by
  unfold pyStrip
  rw [dropWhile_eq_self_of _ _ h,
    dropWhile_eq_self_of _ _ (fun c hc => h c (List.mem_reverse.mp hc)),
    List.reverse_reverse]

lemma natToChars_good (n : ℕ) :
    ∀ c ∈ natToChars n, c.isDigit = true ∧ c ≠ ',' ∧ c ≠ '\n' ∧ c ≠ '-' ∧
      c ≠ '+' ∧ c ≠ 'i' ∧ pyIsSpace c = false := by
  intro c hc
  rw [natToChars, List.mem_reverse] at hc
  obtain ⟨d, hd, rfl⟩ := natToRevChars_mem n c hc
  obtain ⟨g1, -, g3, g4, g5, g6, g7, g8⟩ := digitChar10_spec d hd
  exact ⟨g1, g3, g4, g5, g6, g7, g8⟩

lemma intToChars_good (i : ℤ) :
    ∀ c ∈ intToChars i, c ≠ ',' ∧ c ≠ '\n' ∧ c ≠ 'i' ∧
      pyIsSpace c = false := by
  intro c hc
  unfold intToChars at hc
  split at hc
  · rcases List.mem_cons.mp hc with rfl | hc
    · refine ⟨by decide, by decide, by decide, by decide⟩
    · obtain ⟨-, g3, g4, -, -, g6, g8⟩ := natToChars_good _ c hc
      exact ⟨g3, g4, g6, g8⟩
  · obtain ⟨-, g3, g4, -, -, g6, g8⟩ := natToChars_good _ c hc
    exact ⟨g3, g4, g6, g8⟩

lemma pyInt_intToChars (i : ℤ) : pyInt (intToChars i) = some i := by
  have hstrip : pyStrip (intToChars i) = intToChars i :=
    pyStrip_eq_self _ (fun c hc => (intToChars_good i c hc).2.2.2)
  unfold pyInt
  rw [hstrip]
  unfold intToChars
  by_cases hi : i < 0
  · rw [if_pos hi]
    simp only [pyIntCore, if_neg (by decide : ¬('-' = '+')), if_pos rfl,
      pyReadNat_natToChars]
    simp only [Option.bind_eq_bind, Option.some_bind, Option.map_some',
      Option.pure_def, if_true, Option.some.injEq]
    omega
  · rw [if_neg hi]
    cases hnc : natToChars i.toNat with
    | nil => exact absurd (by simpa [natToChars] using hnc) (natToRevChars_ne_nil i.toNat)
    | cons c cs =>
      have hcmem : c ∈ natToChars i.toNat := by
        rw [hnc]
        simp
      obtain ⟨-, -, -, g5, g6, -, -⟩ := natToChars_good _ c hcmem
      simp only [pyIntCore, if_neg g6, if_neg g5, ← hnc,
        pyReadNat_natToChars]
      simp only [Option.bind_eq_bind, Option.some_bind, Option.map_some',
        Option.pure_def, Option.some.injEq]
      omega

lemma intToChars_ne_id (i : ℤ) : intToChars i ≠ "id".data := by
  intro h
  have : 'i' ∈ intToChars i := by
    rw [h]
    decide
  exact (intToChars_good i 'i' this).2.2.1 rfl

lemma splitPred_ne_nil (p : Char → Bool) (l : List Char) :
    splitPred p l ≠ [] := by
  cases l with
  | nil => simp [splitPred]
  | cons a t =>
    simp only [splitPred]
    cases hs : splitPred p t with
    | nil => simp
    | cons s ss => by_cases hp : p a <;> simp [hp]

lemma splitPred_cons (p : Char → Bool) (a : Char) (t s : List Char)
    (ss : List (List Char)) (hs : splitPred p t = s :: ss) :
    splitPred p (a :: t) = if p a then [] :: s :: ss else (a :: s) :: ss := by
  have h0 : splitPred p (a :: t) =
      match splitPred p t with
      | [] => [[]]
      | s :: ss => if p a then [] :: s :: ss else (a :: s) :: ss := rfl
  rw [h0, hs]

lemma splitOnChar_of_not_mem (c : Char) (f : List Char) (h : ¬c ∈ f) :
    splitOnChar c f = [f] := by
  induction f with
  | nil => rfl
  | cons a t ih =>
    have ha : ¬a = c := fun he => h (by simp [he])
    have ht : ¬c ∈ t := fun he => h (by simp [he])
    unfold splitOnChar at ih ⊢
    rw [splitPred_cons _ _ _ _ _ (ih ht), if_neg (by simpa using ha)]

lemma splitOnChar_append (c : Char) (f l : List Char) (h : ¬c ∈ f) :
    splitOnChar c (f ++ c :: l) = f :: splitOnChar c l := by
  induction f with
  | nil =>
    unfold splitOnChar
    rw [List.nil_append]
    cases hs : splitPred (fun a => a = c) l with
    | nil => exact absurd hs (splitPred_ne_nil _ _)
    | cons s ss => rw [splitPred_cons _ _ _ _ _ hs, if_pos (by simp)]
  | cons a t ih =>
    have ha : ¬a = c := fun he => h (by simp [he])
    have ht : ¬c ∈ t := fun he => h (by simp [he])
    unfold splitOnChar at ih ⊢
    rw [List.cons_append]
    cases hs : splitPred (fun a => a = c) (t ++ c :: l) with
    | nil => exact absurd hs (splitPred_ne_nil _ _)
    | cons s ss =>
      rw [splitPred_cons _ _ _ _ _ hs, if_neg (by simpa using ha)]
      have h2 := ih ht
      rw [hs] at h2
      rw [List.cons.injEq] at h2
      rw [h2.1, h2.2]

lemma joinSep_cons_cons (sep f g : List Char) (rest : List (List Char)) :
    joinSep sep (f :: g :: rest) = f ++ sep ++ joinSep sep (g :: rest) := rfl

lemma splitOnChar_joinSep (c : Char) (fs : List (List Char)) (hne : fs ≠ [])
    (h : ∀ f ∈ fs, ¬c ∈ f) :
    splitOnChar c (joinSep [c] fs) = fs := by
  induction fs with
  | nil => exact absurd rfl hne
  | cons f rest ih =>
    cases rest with
    | nil => exact splitOnChar_of_not_mem c f (h f (by simp))
    | cons g rest' =>
      have hjoin : joinSep [c] (f :: g :: rest') =
          f ++ c :: joinSep [c] (g :: rest') := by
        rw [joinSep_cons_cons]
        simp
      rw [hjoin, splitOnChar_append c f _ (h f (by simp)),
        ih (by simp) (fun x hx => h x (List.mem_cons_of_mem f hx))]

lemma mem_joinSep (c : Char) (fs : List (List Char)) (x : Char)
    (hx : x ∈ joinSep [c] fs) : x = c ∨ ∃ f ∈ fs, x ∈ f := by
  induction fs with
  | nil => simp [joinSep] at hx
  | cons f rest ih =>
    cases rest with
    | nil =>
      exact Or.inr ⟨f, by simp, hx⟩
    | cons g rest' =>
      rw [joinSep_cons_cons] at hx
      simp only [List.append_assoc, List.mem_append, List.mem_singleton]
        at hx
      rcases hx with hx | hx | hx
      · exact Or.inr ⟨f, by simp, hx⟩
      · exact Or.inl hx
      · rcases ih hx with hx | ⟨ff, hff, hxx⟩
        · exact Or.inl hx
        · exact Or.inr ⟨ff, List.mem_cons_of_mem f hff, hxx⟩

lemma pyRstripNl_concat (content : List Char)
    (h : ∀ x ∈ content, ¬x = '\n') :
    pyRstripNl (content ++ ['\n']) = content := by
  unfold pyRstripNl
  rw [List.reverse_append]
  simp only [List.reverse_cons, List.reverse_nil, List.nil_append,
    List.singleton_append, List.dropWhile_cons]
  rw [if_pos (by simp)]
  rw [dropWhile_eq_self_of _ _
    (fun x hx => by simpa using h x (List.mem_reverse.mp hx)),
    List.reverse_reverse]

lemma goodField_chars (l : List Char) (h : goodField l) :
    ∀ x ∈ l, ¬x = ',' ∧ ¬x = '\n' := by
  intro x hx
  constructor
  · intro he
    rw [he] at hx
    exact h.1 hx
  · intro he
    rw [he] at hx
    exact h.2 hx

lemma string_data_ne_nil (d : String) (h : d ≠ "") : d.data ≠ [] := by
  intro hd
  apply h
  cases d with
  | mk data =>
    simp only [String.data] at hd
    rw [hd]

/-- Character-level safety of one record's CSV fields. -/
lemma csv_fields_chars (fstr : ℚ → List Char) (loc : vehicle_location)
    (hg : goodField (fstr loc.timestamp) ∧ goodField (fstr loc.lat) ∧
      goodField (fstr loc.lon))
    (hr : goodField loc.route.data)
    (hd : ∀ d : String, loc.dir = some d → d ≠ "" ∧ goodField d.data) :
    ∀ f ∈ csv_fields fstr loc, ∀ x ∈ f, ¬x = ',' ∧ ¬x = '\n' := by
  intro f hf
  simp only [csv_fields, List.mem_cons, List.not_mem_nil, or_false] at hf
  rcases hf with rfl | rfl | rfl | rfl | rfl | rfl | rfl | rfl
  · exact goodField_chars _ hg.1
  · intro x hx
    obtain ⟨g1, g2, -, -⟩ := intToChars_good _ x hx
    exact ⟨g1, g2⟩
  · exact goodField_chars _ hr
  · cases hdir : loc.dir with
    | none => simp
    | some d => exact goodField_chars _ (hd d hdir).2
  · exact goodField_chars _ hg.2.1
  · exact goodField_chars _ hg.2.2
  · intro x hx
    obtain ⟨g1, g2, -, -⟩ := intToChars_good _ x hx
    exact ⟨g1, g2⟩
  · intro x hx
    obtain ⟨g1, g2, -, -⟩ := intToChars_good _ x hx
    exact ⟨g1, g2⟩

/-- Splitting one encoded record line recovers its fields. -/
lemma split_csv_line (fstr : ℚ → List Char) (loc : vehicle_location)
    (hchars : ∀ f ∈ csv_fields fstr loc, ∀ x ∈ f, ¬x = ',' ∧ ¬x = '\n') :
    splitOnChar ',' (pyRstripNl (csv_line fstr loc)) = csv_fields fstr loc := by
  have hnonl : ∀ x ∈ joinSep [','] (csv_fields fstr loc), ¬x = '\n' := by
    intro x hx
    rcases mem_joinSep ',' _ x hx with rfl | ⟨f, hfm, hxf⟩
    · decide
    · exact (hchars f hfm x hxf).2
  rw [csv_line, pyRstripNl_concat _ hnonl]
  exact splitOnChar_joinSep ',' _ (by simp [csv_fields])
    (fun f hf he => (hchars f hf ',' he).1 rfl)

/-- Decoding one encoded record line recovers the record, provided the float
fields round-trip and a present `dir` is non-empty. -/
lemma read_csv_line_round (fstr : ℚ → List Char) (loc : vehicle_location)
    (hf : pyFloat (fstr loc.timestamp) = some loc.timestamp ∧
      pyFloat (fstr loc.lat) = some loc.lat ∧
      pyFloat (fstr loc.lon) = some loc.lon)
    (hchars : ∀ f ∈ csv_fields fstr loc, ∀ x ∈ f, ¬x = ',' ∧ ¬x = '\n')
    (hdn : ∀ d : String, loc.dir = some d → d ≠ "") :
    read_csv_line (csv_line fstr loc) = some loc := by
  have hsplit := split_csv_line fstr loc hchars
  rw [csv_fields] at hsplit
  obtain ⟨hts, hla, hlo⟩ := hf
  simp only [read_csv_line, hsplit, hts, hla, hlo, pyInt_intToChars,
    Option.some.injEq]
  obtain ⟨ts, i, route, dir, lat, lon, hdg, spd⟩ := loc
  simp only at *
  cases hdir : dir with
  | none => simp
  | some d =>
    have hdnn : d.data ≠ [] :=
      string_data_ne_nil d (hdn d (by rw [hdir]))
    simp only [hdir]
    simp [List.isEmpty_iff, hdnn]

/-- An encoded record line is never mistaken for the header line. -/
lemma csv_line_ne_header (fstr : ℚ → List Char) (loc : vehicle_location)
    (hchars : ∀ f ∈ csv_fields fstr loc, ∀ x ∈ f, ¬x = ',' ∧ ¬x = '\n') :
    ¬splitOnChar ',' (pyRstripNl (csv_line fstr loc)) = header_fields := by
  rw [split_csv_line fstr loc hchars]
  intro heq
  simp only [csv_fields, header_fields, List.cons.injEq] at heq
  exact intToChars_ne_id loc.id heq.2.1

/-- Round trip over the data lines. -/
lemma read_csv_map (fstr : ℚ → List Char) (locs : List vehicle_location)
    (hf : ∀ loc ∈ locs, pyFloat (fstr loc.timestamp) = some loc.timestamp ∧
      pyFloat (fstr loc.lat) = some loc.lat ∧
      pyFloat (fstr loc.lon) = some loc.lon)
    (hg : ∀ loc ∈ locs, goodField (fstr loc.timestamp) ∧
      goodField (fstr loc.lat) ∧ goodField (fstr loc.lon))
    (hr : ∀ loc ∈ locs, goodField loc.route.data)
    (hd : ∀ loc ∈ locs, ∀ d : String, loc.dir = some d → d ≠ "" ∧
      goodField d.data) :
    read_csv (locs.map (csv_line fstr)) = some locs := by
  induction locs with
  | nil => rfl
  | cons loc rest ih =>
    have hmem : loc ∈ loc :: rest := by simp
    have hchars := csv_fields_chars fstr loc (hg loc hmem) (hr loc hmem)
      (hd loc hmem)
    have hline := read_csv_line_round fstr loc (hf loc hmem) hchars
      (fun d hdir => (hd loc hmem d hdir).1)
    have hrest := ih (fun l hl => hf l (List.mem_cons_of_mem _ hl))
      (fun l hl => hg l (List.mem_cons_of_mem _ hl))
      (fun l hl => hr l (List.mem_cons_of_mem _ hl))
      (fun l hl => hd l (List.mem_cons_of_mem _ hl))
    simp only [List.map_cons, read_csv,
      if_neg (csv_line_ne_header fstr loc hchars), hline, hrest]

/-! ## Claim theorems: CSV round trip (C9) -/

/-- C9 counterexample: a Deduplicator-accepted record whose `dir` is the
present-but-empty string does not survive the CSV round trip — the empty
`dir` field decodes as the absent value. -/
theorem C9_counterexample :
    (locations_run emptyHist [(0, c9bad)]).2.1 = [c9bad] ∧
    read_csv (csv fstrEx [c9bad]) = some [c9dec] ∧
    c9dec ≠ c9bad := by
  refine ⟨by with_unfolding_all decide, by with_unfolding_all decide,
    by with_unfolding_all decide⟩

/-- C9 (amended): encoding a record sequence with `Archive.csv` and decoding
it with `read_csv` returns the same ordered sequence, provided the abstract
float representation round-trips on the sequence's float fields, all field
texts are free of the delimiter and of newlines, and no record carries a
present-but-empty `dir` (an empty `dir` field decodes as the absent
value). -/
theorem C9_amended_roundtrip (fstr : ℚ → List Char)
    (locs : List vehicle_location)
    (hf : ∀ loc ∈ locs, pyFloat (fstr loc.timestamp) = some loc.timestamp ∧
      pyFloat (fstr loc.lat) = some loc.lat ∧
      pyFloat (fstr loc.lon) = some loc.lon)
    (hg : ∀ loc ∈ locs, goodField (fstr loc.timestamp) ∧
      goodField (fstr loc.lat) ∧ goodField (fstr loc.lon))
    (hr : ∀ loc ∈ locs, goodField loc.route.data)
    (hd : ∀ loc ∈ locs, ∀ d : String, loc.dir = some d → d ≠ "" ∧
      goodField d.data) :
    read_csv (csv fstr locs) = some locs := by
  rw [csv]
  rw [read_csv]
  rw [if_pos (by decide)]
  exact read_csv_map fstr locs hf hg hr hd

/-- Witness for C9's amended round trip on a concrete accepted record. -/
theorem C9_witness :
    (locations_run emptyHist [(0, c9w)]).2.1 = [c9w] ∧
    read_csv (csv fstrEx [c9w]) = some [c9w] := by
  refine ⟨by with_unfolding_all decide, ?_⟩
  refine C9_amended_roundtrip fstrEx [c9w] ?_ ?_ ?_ ?_
  · intro loc hmem
    simp only [List.mem_singleton] at hmem
    subst hmem
    refine ⟨by with_unfolding_all decide, by with_unfolding_all decide,
      by with_unfolding_all decide⟩
  · intro loc hmem
    simp only [List.mem_singleton] at hmem
    subst hmem
    refine ⟨⟨by with_unfolding_all decide, by with_unfolding_all decide⟩,
      ⟨by with_unfolding_all decide, by with_unfolding_all decide⟩,
      ⟨by with_unfolding_all decide, by with_unfolding_all decide⟩⟩
  · intro loc hmem
    simp only [List.mem_singleton] at hmem
    subst hmem
    exact ⟨by decide, by decide⟩
  · intro loc hmem d hdir
    simp only [List.mem_singleton] at hmem
    subst hmem
    have hde : d = outTag := by
      have h0 : some outTag = some d := hdir
      exact (Option.some.injEq _ _ ▸ h0).symm
    subst hde
    exact ⟨by decide, by decide, by decide⟩

end Timetable
